import Mathlib

/-!
Shallow embedding of the `qub` single-qubit quantum simulator.

`src/qubit.rs` defines `Qubit<T: Float>`, a two-component complex amplitude
vector with probability accessors, validation and measurement;
`src/qugate.rs` defines `QuGate<T: Float>`, a 2×2 complex matrix with named
constructors (Pauli-X, Pauli-Y, Pauli-Z, Hadamard) and application to a
qubit by matrix-vector product.

The generic floating type `T: Float` is modelled by the exact-arithmetic
field ℚ(√2) (`Qrt2` below), which contains every scalar the named
constructors produce (rationals and multiples of 1/√2).  Floating-point
rounding is idealised away: every arithmetic step of the source is
mirrored exactly, and the conversion `to_f64` performed by `measure` is
the identity in this model.
-/

/-- Exact model of the scalar type `T: Float`: the field ℚ(√2).  A value
`a + b·√2` is stored as the pair of rationals `(a, b)`. -/
structure Qrt2 where
  a : ℚ
  b : ℚ
deriving DecidableEq

instance : Zero Qrt2 := ⟨⟨0, 0⟩⟩

instance : One Qrt2 := ⟨⟨1, 0⟩⟩

instance : Add Qrt2 := ⟨fun x y => ⟨x.a + y.a, x.b + y.b⟩⟩

instance : Neg Qrt2 := ⟨fun x => ⟨-x.a, -x.b⟩⟩

instance : Sub Qrt2 := ⟨fun x y => ⟨x.a - y.a, x.b - y.b⟩⟩

instance : Mul Qrt2 :=
  ⟨fun x y => ⟨x.a * y.a + 2 * (x.b * y.b), x.a * y.b + x.b * y.a⟩⟩

/-- Field inverse of `a + b·√2`, computed on the rational components
(`(a - b·√2) / (a² - 2b²)`; the rational division is total with junk value
`0` at a zero denominator, which only arises for the zero element). -/
def Qrt2.inv (x : Qrt2) : Qrt2 :=
  ⟨x.a / (x.a * x.a - 2 * (x.b * x.b)), -x.b / (x.a * x.a - 2 * (x.b * x.b))⟩

instance : Inv Qrt2 := ⟨Qrt2.inv⟩

instance : Div Qrt2 := ⟨fun x y => x * y.inv⟩

/-- Strict positivity of `a + b·√2` as a real number, decided on the
rational components by a sign analysis. -/
def Qrt2.pos (x : Qrt2) : Bool :=
  if 0 ≤ x.a then
    if 0 ≤ x.b then decide (x.a ≠ 0 ∨ x.b ≠ 0)
    else decide (2 * (x.b * x.b) < x.a * x.a)
  else
    if 0 ≤ x.b then decide (x.a * x.a < 2 * (x.b * x.b))
    else false

/-- Order on ℚ(√2): model of the `PartialOrd` comparison the `Float`
bound provides on the scalar type. -/
def Qrt2.blt (x y : Qrt2) : Bool := Qrt2.pos (y - x)

instance : LT Qrt2 := ⟨fun x y => Qrt2.blt x y = true⟩

instance : LE Qrt2 := ⟨fun x y => ¬ y < x⟩

instance (x y : Qrt2) : Decidable (x < y) :=
  inferInstanceAs (Decidable (Qrt2.blt x y = true))

instance (x y : Qrt2) : Decidable (x ≤ y) :=
  inferInstanceAs (Decidable (¬ y < x))

/-- Model of `T::from(2.0).unwrap().sqrt()` as used by the Hadamard
constructor: the square root of two, the element `0 + 1·√2` of ℚ(√2). -/
def Qrt2.sqrt2 : Qrt2 := ⟨0, 1⟩

@[simp] theorem Qrt2.zero_def : (0 : Qrt2) = ⟨0, 0⟩ := rfl

@[simp] theorem Qrt2.one_def : (1 : Qrt2) = ⟨1, 0⟩ := rfl

@[simp] theorem Qrt2.add_def (x y : Qrt2) :
    x + y = ⟨x.a + y.a, x.b + y.b⟩ := rfl

@[simp] theorem Qrt2.neg_def (x : Qrt2) : -x = ⟨-x.a, -x.b⟩ := rfl

@[simp] theorem Qrt2.sub_def (x y : Qrt2) :
    x - y = ⟨x.a - y.a, x.b - y.b⟩ := rfl

@[simp] theorem Qrt2.mul_def (x y : Qrt2) :
    x * y = ⟨x.a * y.a + 2 * (x.b * y.b), x.a * y.b + x.b * y.a⟩ := rfl

@[simp] theorem Qrt2.inv_def (x : Qrt2) :
    x⁻¹ = ⟨x.a / (x.a * x.a - 2 * (x.b * x.b)),
      -x.b / (x.a * x.a - 2 * (x.b * x.b))⟩ := rfl

@[simp] theorem Qrt2.div_def (x y : Qrt2) : x / y = x * y⁻¹ := rfl

theorem Qrt2.lt_def (x y : Qrt2) : x < y ↔ Qrt2.pos (y - x) = true := Iff.rfl

theorem Qrt2.le_def (x y : Qrt2) : x ≤ y ↔ ¬ y < x := Iff.rfl

/-- Sanity check that `Qrt2.sqrt2` squares to two. -/
theorem Qrt2.sqrt2_mul_sqrt2 : Qrt2.sqrt2 * Qrt2.sqrt2 = 1 + 1 := by
  simp [Qrt2.sqrt2]
  norm_num

/-- Model of `num::complex::Complex<T>`: a real part and an imaginary
part, `Complex::new(re, im)` being the anonymous constructor. -/
structure Cplx (T : Type) where
  re : T
  im : T
deriving DecidableEq

instance {T : Type} [Add T] : Add (Cplx T) :=
  ⟨fun x y => ⟨x.re + y.re, x.im + y.im⟩⟩

instance {T : Type} [Add T] [Sub T] [Mul T] : Mul (Cplx T) :=
  ⟨fun x y => ⟨x.re * y.re - x.im * y.im, x.re * y.im + x.im * y.re⟩⟩

@[simp] theorem Cplx.add_expand {T : Type} [Add T] (x y : Cplx T) :
    x + y = ⟨x.re + y.re, x.im + y.im⟩ := rfl

@[simp] theorem Cplx.mul_expand {T : Type} [Add T] [Sub T] [Mul T] (x y : Cplx T) :
    x * y = ⟨x.re * y.re - x.im * y.im, x.re * y.im + x.im * y.re⟩ := rfl

/-- Model of `Complex::norm_sqr`: `re * re + im * im`. -/
def Cplx.norm_sqr {T : Type} [Add T] [Mul T] (x : Cplx T) : T :=
  x.re * x.re + x.im * x.im

/-- Model of `Complex::conj`: negate the imaginary part. -/
def Cplx.conj {T : Type} [Neg T] (x : Cplx T) : Cplx T :=
  ⟨x.re, -x.im⟩

/-- Model of `Qubit<T>` (src/qubit.rs): the state field is the complex
vector of size 2, component `s0` at index 0 (amplitude of |0⟩) and `s1`
at index 1 (amplitude of |1⟩). -/
structure Qubit (T : Type) where
  s0 : Cplx T
  s1 : Cplx T
deriving DecidableEq

/-- Model of `Qubit::new(alpha, beta)`. -/
def Qubit.new {T : Type} (alpha beta : Cplx T) : Qubit T := ⟨alpha, beta⟩

/-- Model of `Qubit::zero()`: amplitudes `(1+0i, 0+0i)`. -/
def Qubit.zero (T : Type) [Zero T] [One T] : Qubit T :=
  Qubit.new (Cplx.mk 1 0) (Cplx.mk 0 0)

/-- Model of `Qubit::one()`: amplitudes `(0+0i, 1+0i)`. -/
def Qubit.one (T : Type) [Zero T] [One T] : Qubit T :=
  Qubit.new (Cplx.mk 0 0) (Cplx.mk 1 0)

/-- Model of `Qubit::get_state()`: the two amplitudes in order. -/
def Qubit.get_state {T : Type} (q : Qubit T) : Cplx T × Cplx T :=
  (q.s0, q.s1)

/-- Model of `Qubit::alpha()`: the amplitude at index 0. -/
def Qubit.alpha {T : Type} (q : Qubit T) : Cplx T := q.s0

/-- Model of `Qubit::beta()`: the amplitude at index 1. -/
def Qubit.beta {T : Type} (q : Qubit T) : Cplx T := q.s1

/-- Model of `Qubit::probabilities()`: `norm_sqr` of each amplitude. -/
def Qubit.probabilities {T : Type} [Add T] [Mul T] (q : Qubit T) : T × T :=
  (q.s0.norm_sqr, q.s1.norm_sqr)

/-- Model of `Qubit::zero_probability()`. -/
def Qubit.zero_probability {T : Type} [Add T] [Mul T] (q : Qubit T) : T :=
  q.probabilities.1

/-- Model of `Qubit::one_probability()`. -/
def Qubit.one_probability {T : Type} [Add T] [Mul T] (q : Qubit T) : T :=
  q.probabilities.2

/-- Model of `Qubit::validate()`: exact equality test
`p0 + p1 == T::one()`. -/
def Qubit.validate {T : Type} [Add T] [Mul T] [One T] [DecidableEq T]
    (q : Qubit T) : Bool :=
  decide (q.zero_probability + q.one_probability = 1)

/-- Model of `Qubit::measure()`.  The source draws one uniform sample
`random::<f64>()` in [0,1) and compares it with
`zero_probability().to_f64()`; the sample is made an explicit argument,
and the `to_f64` conversion is the identity in the exact model. -/
def Qubit.measure {T : Type} [Add T] [Mul T] [Zero T] [One T] [LT T]
    [∀ x y : T, Decidable (x < y)] (q : Qubit T) (sample : T) : Qubit T :=
  if sample < q.zero_probability then Qubit.zero T else Qubit.one T

/-- Model of the 2×2 complex matrix `Array2<Complex<T>>` held by a gate,
entry `mRC` at row R, column C. -/
structure Mat2 (T : Type) where
  m00 : Cplx T
  m01 : Cplx T
  m10 : Cplx T
  m11 : Cplx T
deriving DecidableEq

/-- Model of `QuGate<T>` (src/qugate.rs): a wrapped 2×2 complex matrix. -/
structure QuGate (T : Type) where
  matrix : Mat2 T
deriving DecidableEq

/-- Model of `QuGate::new(matrix)`. -/
def QuGate.new {T : Type} (m : Mat2 T) : QuGate T := ⟨m⟩

/-- Model of `QuGate::apply(qubit)`: the matrix-vector product
`self.matrix.dot(qubit.state)`, wrapped as a new qubit. -/
def QuGate.apply {T : Type} [Add T] [Sub T] [Mul T]
    (g : QuGate T) (q : Qubit T) : Qubit T :=
  { s0 := g.matrix.m00 * q.s0 + g.matrix.m01 * q.s1
    s1 := g.matrix.m10 * q.s0 + g.matrix.m11 * q.s1 }

/-- Model of `QuGate::pauli_x()`: `[[0, 1], [1, 0]]`. -/
def QuGate.pauli_x (T : Type) [Zero T] [One T] : QuGate T :=
  QuGate.new ⟨Cplx.mk 0 0, Cplx.mk 1 0, Cplx.mk 1 0, Cplx.mk 0 0⟩

/-- Model of `QuGate::pauli_y()` exactly as the source writes it: every
off-diagonal entry is `Complex::new(T::zero(), T::one())`, that is `+i`,
so the constructed matrix is `[[0, i], [i, 0]]`. -/
def QuGate.pauli_y (T : Type) [Zero T] [One T] : QuGate T :=
  QuGate.new ⟨Cplx.mk 0 0, Cplx.mk 0 1, Cplx.mk 0 1, Cplx.mk 0 0⟩

/-- Model of `QuGate::pauli_z()`: `[[1, 0], [0, -1]]`. -/
def QuGate.pauli_z (T : Type) [Zero T] [One T] [Neg T] : QuGate T :=
  QuGate.new ⟨Cplx.mk 1 0, Cplx.mk 0 0, Cplx.mk 0 0, Cplx.mk (-1) 0⟩

/-- Model of `QuGate::hadamard()`: `norm_factor = T::one() / sqrt(2)`,
matrix `[[c, c], [c, -c]]` with `c = norm_factor`. -/
def QuGate.hadamard : QuGate Qrt2 :=
  QuGate.new ⟨Cplx.mk (1 / Qrt2.sqrt2) 0, Cplx.mk (1 / Qrt2.sqrt2) 0,
    Cplx.mk (1 / Qrt2.sqrt2) 0, Cplx.mk (-(1 / Qrt2.sqrt2)) 0⟩

/-- Conjugate transpose of a 2×2 complex matrix (statement apparatus for
the unitarity property). -/
def Mat2.conjTranspose {T : Type} [Neg T] (m : Mat2 T) : Mat2 T :=
  ⟨m.m00.conj, m.m10.conj, m.m01.conj, m.m11.conj⟩

/-- Product of two 2×2 complex matrices. -/
def Mat2.mul {T : Type} [Add T] [Sub T] [Mul T] (x y : Mat2 T) : Mat2 T :=
  ⟨x.m00 * y.m00 + x.m01 * y.m10, x.m00 * y.m01 + x.m01 * y.m11,
   x.m10 * y.m00 + x.m11 * y.m10, x.m10 * y.m01 + x.m11 * y.m11⟩

/-- The 2×2 identity matrix. -/
def Mat2.id2 (T : Type) [Zero T] [One T] : Mat2 T :=
  ⟨Cplx.mk 1 0, Cplx.mk 0 0, Cplx.mk 0 0, Cplx.mk 1 0⟩

/-- A gate is unitary when its conjugate transpose times itself is the
identity. -/
def QuGate.isUnitary {T : Type} [Add T] [Sub T] [Mul T] [Neg T]
    [Zero T] [One T] (g : QuGate T) : Prop :=
  Mat2.mul g.matrix.conjTranspose g.matrix = Mat2.id2 T

instance {T : Type} [Add T] [Sub T] [Mul T] [Neg T] [Zero T] [One T]
    [DecidableEq T] (g : QuGate T) : Decidable g.isUnitary :=
  inferInstanceAs (Decidable (Mat2.mul g.matrix.conjTranspose g.matrix = Mat2.id2 T))

/-- Comparisons between purely rational elements of ℚ(√2) follow the
rational order. -/
theorem Qrt2.mk_le_mk {p q : ℚ} (h : p ≤ q) : (⟨p, 0⟩ : Qrt2) ≤ ⟨q, 0⟩ := by
  rw [Qrt2.le_def, Qrt2.lt_def, Qrt2.sub_def]
  rcases eq_or_lt_of_le h with he | hl
  · subst he
    simp [Qrt2.pos]
  · have h1 : ¬ (0 : ℚ) ≤ p - q := by linarith
    simp [Qrt2.pos, h1]
    nlinarith [mul_self_nonneg (p - q)]

/-- Both components of a qubit's `probabilities()` lie in the unit
interval. -/
def probsWithinUnit (q : Qubit Qrt2) : Prop :=
  0 ≤ q.probabilities.1 ∧ q.probabilities.1 ≤ 1 ∧
    0 ≤ q.probabilities.2 ∧ q.probabilities.2 ≤ 1

/-- The unit-interval bound follows from an explicit rational evaluation
of `probabilities()`. -/
theorem probsWithinUnit_of (q : Qubit Qrt2) (p0 p1 : ℚ)
    (h : q.probabilities = (⟨p0, 0⟩, ⟨p1, 0⟩))
    (h0 : 0 ≤ p0) (h1 : p0 ≤ 1) (h2 : 0 ≤ p1) (h3 : p1 ≤ 1) :
    probsWithinUnit q := by
  unfold probsWithinUnit
  rw [h]
  exact ⟨Qrt2.mk_le_mk h0, Qrt2.mk_le_mk h1, Qrt2.mk_le_mk h2, Qrt2.mk_le_mk h3⟩

/-- Claim C1: the source `pauli_y` constructor writes
`Complex::new(T::zero(), T::one())`, that is `+i`, at row 0, column 1 —
not the `-i` that the Pauli-Y matrix `[[0,-i],[i,0]]` requires.  The
constructed entry `0 + 1i` differs from `0 - 1i`. -/
theorem pauli_y_source_entry01_is_plus_i :
    (QuGate.pauli_y Qrt2).matrix.m01 = Cplx.mk 0 1 ∧
      Cplx.mk (0 : Qrt2) 1 ≠ Cplx.mk 0 (-1) := by
  constructor
  · rfl
  · simp
    norm_num

/-- Claim C2: `validate()` returns true iff
`zero_probability() + one_probability()` equals exactly 1 in the working
scalar type (an exact equality check, for every choice of scalar type). -/
theorem validate_iff_probability_sum_eq_one (T : Type) [Add T] [Mul T]
    [One T] [DecidableEq T] (q : Qubit T) :
    q.validate = true ↔ q.zero_probability + q.one_probability = 1 := by
  simp [Qubit.validate]

/-- Witness for C2: `validate` evaluated on the concrete state `zero()`. -/
theorem validate_iff_probability_sum_eq_one_witness :
    (Qubit.zero Qrt2).validate = true :=
  (validate_iff_probability_sum_eq_one Qrt2 (Qubit.zero Qrt2)).mpr (by
    simp [Qubit.zero_probability, Qubit.one_probability, Qubit.probabilities,
      Qubit.zero, Qubit.new, Cplx.norm_sqr])

/-- Claim C3: each of the four named gate constructors produces a unitary
matrix: conjugate transpose times the matrix is the 2×2 identity.  This
holds even for the miswritten `pauli_y`, whose matrix `[[0,i],[i,0]]` is
`i` times Pauli-X and hence still unitary. -/
theorem named_gate_constructors_unitary :
    (QuGate.pauli_x Qrt2).isUnitary ∧ (QuGate.pauli_y Qrt2).isUnitary ∧
      (QuGate.pauli_z Qrt2).isUnitary ∧ QuGate.hadamard.isUnitary := by
  refine ⟨?_, ?_, ?_, ?_⟩ <;>
    simp [QuGate.isUnitary, QuGate.pauli_x, QuGate.pauli_y, QuGate.pauli_z,
      QuGate.hadamard, QuGate.new, Mat2.mul, Mat2.conjTranspose, Mat2.id2,
      Cplx.conj, Qrt2.sqrt2] <;>
    norm_num

/-- Claim C4: applying the source's Pauli-Y gate to `zero()` yields the
amplitude pair `(0+0i, 0+1i)`. -/
theorem pauli_y_maps_zero_to_plus_i_one :
    (QuGate.pauli_y Qrt2).apply (Qubit.zero Qrt2) =
      Qubit.new (Cplx.mk 0 0) (Cplx.mk 0 1) := by
  simp [QuGate.apply, QuGate.pauli_y, QuGate.new, Qubit.zero, Qubit.new]

/-- Claim C5: for every sample in [0,1), measuring `zero()` returns
`zero()` and measuring `one()` returns `one()`; and for every input state
and every sample, `measure` returns one of the two canonical basis
states. -/
theorem measure_collapses_to_basis_states (q : Qubit Qrt2) (sample : Qrt2)
    (h0 : 0 ≤ sample) (h1 : sample < 1) :
    (Qubit.zero Qrt2).measure sample = Qubit.zero Qrt2 ∧
      (Qubit.one Qrt2).measure sample = Qubit.one Qrt2 ∧
      (q.measure sample = Qubit.zero Qrt2 ∨
        q.measure sample = Qubit.one Qrt2) := by
  have hz : (Qubit.zero Qrt2).zero_probability = 1 := by
    simp [Qubit.zero_probability, Qubit.probabilities, Qubit.zero, Qubit.new,
      Cplx.norm_sqr]
  have ho : (Qubit.one Qrt2).zero_probability = 0 := by
    simp [Qubit.zero_probability, Qubit.probabilities, Qubit.one, Qubit.new,
      Cplx.norm_sqr]
  have h0' : ¬ sample < 0 := h0
  refine ⟨?_, ?_, ?_⟩
  · unfold Qubit.measure
    rw [hz, if_pos h1]
  · unfold Qubit.measure
    rw [ho, if_neg h0']
  · unfold Qubit.measure
    by_cases h : sample < q.zero_probability
    · exact Or.inl (if_pos h)
    · exact Or.inr (if_neg h)

/-- Witness for C5 at the concrete sample 0. -/
theorem measure_collapses_to_basis_states_witness :
    (Qubit.zero Qrt2).measure 0 = Qubit.zero Qrt2 ∧
      (Qubit.one Qrt2).measure 0 = Qubit.one Qrt2 := by
  have h := measure_collapses_to_basis_states (Qubit.zero Qrt2) 0
    (Qrt2.mk_le_mk le_rfl)
    (by rw [Qrt2.lt_def]; simp [Qrt2.pos])
  exact ⟨h.1, h.2.1⟩

/-- Claim C6: Pauli-X maps `zero()` to `one()` and `one()` to `zero()`,
and applying it twice returns each basis state to itself. -/
theorem pauli_x_swaps_basis_and_round_trips :
    (QuGate.pauli_x Qrt2).apply (Qubit.zero Qrt2) = Qubit.one Qrt2 ∧
      (QuGate.pauli_x Qrt2).apply (Qubit.one Qrt2) = Qubit.zero Qrt2 ∧
      (QuGate.pauli_x Qrt2).apply
        ((QuGate.pauli_x Qrt2).apply (Qubit.zero Qrt2)) = Qubit.zero Qrt2 ∧
      (QuGate.pauli_x Qrt2).apply
        ((QuGate.pauli_x Qrt2).apply (Qubit.one Qrt2)) = Qubit.one Qrt2 := by
  refine ⟨?_, ?_, ?_, ?_⟩ <;>
    simp [QuGate.apply, QuGate.pauli_x, QuGate.new, Qubit.zero, Qubit.one,
      Qubit.new]

/-- Claim C7: Pauli-Z fixes `zero()`; on `one()` it negates the second
amplitude, producing `(0+0i, -1+0i)`, whose probabilities equal those of
`one()`. -/
theorem pauli_z_fixes_zero_negates_one_amplitude :
    (QuGate.pauli_z Qrt2).apply (Qubit.zero Qrt2) = Qubit.zero Qrt2 ∧
      (QuGate.pauli_z Qrt2).apply (Qubit.one Qrt2) =
        Qubit.new (Cplx.mk 0 0) (Cplx.mk (-1) 0) ∧
      ((QuGate.pauli_z Qrt2).apply (Qubit.one Qrt2)).probabilities =
        (Qubit.one Qrt2).probabilities := by
  refine ⟨?_, ?_, ?_⟩ <;>
    simp [QuGate.apply, QuGate.pauli_z, QuGate.new, Qubit.zero, Qubit.one,
      Qubit.new, Qubit.probabilities, Cplx.norm_sqr]

/-- Claim C8: Hadamard maps `zero()` to the amplitude pair `(c+0i, c+0i)`
with `c = 1/√2` computed in the working scalar type. -/
theorem hadamard_maps_zero_to_equal_superposition :
    QuGate.hadamard.apply (Qubit.zero Qrt2) =
      Qubit.new (Cplx.mk (1 / Qrt2.sqrt2) 0) (Cplx.mk (1 / Qrt2.sqrt2) 0) := by
  simp [QuGate.apply, QuGate.hadamard, QuGate.new, Qubit.zero, Qubit.new,
    Qrt2.sqrt2]

/-- Claim C9: for each of the eight states reachable by applying one of
the four named gates to a canonical basis state, both components of
`probabilities()` are non-negative and at most 1. -/
theorem gate_reachable_probabilities_within_unit :
    probsWithinUnit ((QuGate.pauli_x Qrt2).apply (Qubit.zero Qrt2)) ∧
      probsWithinUnit ((QuGate.pauli_x Qrt2).apply (Qubit.one Qrt2)) ∧
      probsWithinUnit ((QuGate.pauli_y Qrt2).apply (Qubit.zero Qrt2)) ∧
      probsWithinUnit ((QuGate.pauli_y Qrt2).apply (Qubit.one Qrt2)) ∧
      probsWithinUnit ((QuGate.pauli_z Qrt2).apply (Qubit.zero Qrt2)) ∧
      probsWithinUnit ((QuGate.pauli_z Qrt2).apply (Qubit.one Qrt2)) ∧
      probsWithinUnit (QuGate.hadamard.apply (Qubit.zero Qrt2)) ∧
      probsWithinUnit (QuGate.hadamard.apply (Qubit.one Qrt2)) := by
  have hx0 : ((QuGate.pauli_x Qrt2).apply (Qubit.zero Qrt2)).probabilities
      = ((⟨0, 0⟩ : Qrt2), (⟨1, 0⟩ : Qrt2)) := by
    simp [QuGate.apply, QuGate.pauli_x, QuGate.new, Qubit.zero, Qubit.new,
      Qubit.probabilities, Cplx.norm_sqr]
  have hx1 : ((QuGate.pauli_x Qrt2).apply (Qubit.one Qrt2)).probabilities
      = ((⟨1, 0⟩ : Qrt2), (⟨0, 0⟩ : Qrt2)) := by
    simp [QuGate.apply, QuGate.pauli_x, QuGate.new, Qubit.one, Qubit.new,
      Qubit.probabilities, Cplx.norm_sqr]
  have hy0 : ((QuGate.pauli_y Qrt2).apply (Qubit.zero Qrt2)).probabilities
      = ((⟨0, 0⟩ : Qrt2), (⟨1, 0⟩ : Qrt2)) := by
    simp [QuGate.apply, QuGate.pauli_y, QuGate.new, Qubit.zero, Qubit.new,
      Qubit.probabilities, Cplx.norm_sqr]
  have hy1 : ((QuGate.pauli_y Qrt2).apply (Qubit.one Qrt2)).probabilities
      = ((⟨1, 0⟩ : Qrt2), (⟨0, 0⟩ : Qrt2)) := by
    simp [QuGate.apply, QuGate.pauli_y, QuGate.new, Qubit.one, Qubit.new,
      Qubit.probabilities, Cplx.norm_sqr]
  have hz0 : ((QuGate.pauli_z Qrt2).apply (Qubit.zero Qrt2)).probabilities
      = ((⟨1, 0⟩ : Qrt2), (⟨0, 0⟩ : Qrt2)) := by
    simp [QuGate.apply, QuGate.pauli_z, QuGate.new, Qubit.zero, Qubit.new,
      Qubit.probabilities, Cplx.norm_sqr]
  have hz1 : ((QuGate.pauli_z Qrt2).apply (Qubit.one Qrt2)).probabilities
      = ((⟨0, 0⟩ : Qrt2), (⟨1, 0⟩ : Qrt2)) := by
    simp [QuGate.apply, QuGate.pauli_z, QuGate.new, Qubit.one, Qubit.new,
      Qubit.probabilities, Cplx.norm_sqr]
  have hh0 : (QuGate.hadamard.apply (Qubit.zero Qrt2)).probabilities
      = ((⟨1/2, 0⟩ : Qrt2), (⟨1/2, 0⟩ : Qrt2)) := by
    simp [QuGate.apply, QuGate.hadamard, QuGate.new, Qubit.zero, Qubit.new,
      Qubit.probabilities, Cplx.norm_sqr, Qrt2.sqrt2]
  have hh1 : (QuGate.hadamard.apply (Qubit.one Qrt2)).probabilities
      = ((⟨1/2, 0⟩ : Qrt2), (⟨1/2, 0⟩ : Qrt2)) := by
    simp [QuGate.apply, QuGate.hadamard, QuGate.new, Qubit.one, Qubit.new,
      Qubit.probabilities, Cplx.norm_sqr, Qrt2.sqrt2]
  exact ⟨probsWithinUnit_of _ 0 1 hx0 (by norm_num) (by norm_num) (by norm_num) (by norm_num),
    probsWithinUnit_of _ 1 0 hx1 (by norm_num) (by norm_num) (by norm_num) (by norm_num),
    probsWithinUnit_of _ 0 1 hy0 (by norm_num) (by norm_num) (by norm_num) (by norm_num),
    probsWithinUnit_of _ 1 0 hy1 (by norm_num) (by norm_num) (by norm_num) (by norm_num),
    probsWithinUnit_of _ 1 0 hz0 (by norm_num) (by norm_num) (by norm_num) (by norm_num),
    probsWithinUnit_of _ 0 1 hz1 (by norm_num) (by norm_num) (by norm_num) (by norm_num),
    probsWithinUnit_of _ (1/2) (1/2) hh0 (by norm_num) (by norm_num) (by norm_num) (by norm_num),
    probsWithinUnit_of _ (1/2) (1/2) hh1 (by norm_num) (by norm_num) (by norm_num) (by norm_num)⟩

/-- Claim C10: for every input state, normalized or not, and every
sample, the state returned by `measure` satisfies `validate`, because it
is always a freshly constructed canonical basis state. -/
theorem measure_always_validates (q : Qubit Qrt2) (sample : Qrt2) :
    ((q.measure sample).validate) = true := by
  have hz : (Qubit.zero Qrt2).validate = true := by
    simp [Qubit.validate, Qubit.zero_probability, Qubit.one_probability,
      Qubit.probabilities, Qubit.zero, Qubit.new, Cplx.norm_sqr]
  have ho : (Qubit.one Qrt2).validate = true := by
    simp [Qubit.validate, Qubit.zero_probability, Qubit.one_probability,
      Qubit.probabilities, Qubit.one, Qubit.new, Cplx.norm_sqr]
  unfold Qubit.measure
  by_cases h : sample < q.zero_probability
  · rw [if_pos h]
    exact hz
  · rw [if_neg h]
    exact ho

/-- Witness for C10 on a deliberately non-normalized input state. -/
theorem measure_always_validates_witness :
    ((Qubit.new (Cplx.mk (1 : Qrt2) 1) (Cplx.mk 1 1)).measure 0).validate
      = true :=
  measure_always_validates (Qubit.new (Cplx.mk 1 1) (Cplx.mk 1 1)) 0
